import Mathlib

/-!
Verification of the request-routing core of `src/shrpx_config.cc`
(host/path pattern matching and backend-group table construction).

Strings are embedded as `List Char`; machine sizes as `Nat`; `ssize_t`
results that can be `-1` as `Int`.
-/

namespace Shrpx

/-- Embedding of `DownstreamAddr` (one backend endpoint), as in the source/spec:
TCP `host`/`port` or a unix-domain path with `host_unix = true`. -/
structure DownstreamAddr where
  host : List Char
  port : Nat
  host_unix : Bool
deriving DecidableEq, Repr

/-- Embedding of `DownstreamAddrGroup`: a pattern string and its pool of addresses. -/
structure DownstreamAddrGroup where
  pattern : List Char
  addrs : List DownstreamAddr
deriving DecidableEq, Repr

/-- Modelled from the spec: `util::inp_strlower`'s per-character ASCII
lowercasing ("Lowercase the extracted host"; `util.cc` is external to the
provided source). -/
def lowcase (c : Char) : Char :=
  if 'A' ≤ c ∧ c ≤ 'Z' then Char.ofNat (c.toNat + 32) else c

/-- Modelled from the spec: `util::inp_strlower` lowercases a string in
place; embedded as a map over the character list. -/
def inp_strlower (s : List Char) : List Char := s.map lowcase

/-- Embedding of `path_match` (shrpx_config.cc:1439-1463).
`std::equal(host, pattern.begin())` is `host <+: pattern` (guarded in the
source by the length condition evaluated first), `std::equal(path,
pattern.begin()+host.size())` is `path <+: pattern.drop host.length`, and
`util::startsWith(path, pattern.begin()+host.size(), pattern.end())` is
`pattern.drop host.length <+: path`. -/
def path_match (pattern host path : List Char) : Bool :=
  if pattern.getLast? ≠ some '/' then
    decide (pattern.length = host.length + path.length ∧
      host <+: pattern ∧ path <+: pattern.drop host.length)
  else if host.length ≤ pattern.length ∧ host <+: pattern ∧
      pattern.drop host.length <+: path then
    true
  else
    decide (pattern.length - 1 = host.length + path.length ∧
      host <+: pattern ∧ path <+: pattern.drop host.length)

/-- Loop of `match` (shrpx_config.cc:1468-1484): `i` is the index of the
head of `groups` in the full table, `res`/`best` the running best index
and its pattern length. -/
def matchAux (host path : List Char) :
    List DownstreamAddrGroup → Nat → Int → Nat → Int
  | [], _, res, _ => res
  | g :: gs, i, res, best =>
    if path_match g.pattern host path then
      if res = -1 ∨ best < g.pattern.length then
        matchAux host path gs (i + 1) (Int.ofNat i) g.pattern.length
      else
        matchAux host path gs (i + 1) res best
    else
      matchAux host path gs (i + 1) res best

/-- Embedding of `match` (shrpx_config.cc:1468-1484); `match` is a Lean
keyword, hence the name. Returns `-1` when no group's pattern matches. -/
def matchGroups (host path : List Char) (groups : List DownstreamAddrGroup) : Int :=
  matchAux host path groups 0 (-1) 0

/-- Embedding of `match_downstream_addr_group_host`
(shrpx_config.cc:1489-1534). -/
def match_downstream_addr_group_host (host path : List Char)
    (groups : List DownstreamAddrGroup) (catch_all : Nat) : Nat :=
  if path = [] ∨ path.head? ≠ some '/' then
    let group := matchGroups host ['/'] groups
    if group ≠ -1 then group.toNat else catch_all
  else
    let group := matchGroups host path groups
    if group ≠ -1 then group.toNat
    else
      let group2 := matchGroups [] path groups
      if group2 ≠ -1 then group2.toNat else catch_all

/-- The path span `[path_first, path_last)` computed in
`match_downstream_addr_group` (shrpx_config.cc:1547-1550):
`fragment = find '#'`, `query = find '?'` within `[begin, fragment)`,
span is `[begin, query)`. -/
def matchable_path (raw_path : List Char) : List Char :=
  (raw_path.takeWhile (fun c => c ≠ '#')).takeWhile (fun c => c ≠ '?')

/-- The segment of the hostport before the first `']'` (the whole
hostport when `']'` is absent): `[std::begin(hostport), p)` for
`p = std::find(..., ']')` in shrpx_config.cc:1560. -/
def bracket_pre (hostport : List Char) : List Char :=
  hostport.takeWhile (fun c => c ≠ ']')

/-- The characters after the first `']'` of the hostport:
`[p + 1, std::end(hostport))` in shrpx_config.cc:1564. -/
def bracket_rest (hostport : List Char) : List Char :=
  hostport.drop ((bracket_pre hostport).length + 1)

/-- Embedding of `match_downstream_addr_group` (shrpx_config.cc:1537-1579).
The IPv6 bracket logic: `bracket_pre hostport = hostport` iff `']'` is
absent (`find` returned `end`); `bracket_rest hostport ≠ []` iff
`p + 1 < std::end(hostport)`; `host.assign(begin, p + 1)` is
`bracket_pre hostport ++ [']']`. -/
def match_downstream_addr_group (hostport raw_path : List Char)
    (groups : List DownstreamAddrGroup) (catch_all : Nat) : Nat :=
  if '/' ∈ hostport then
    catch_all
  else
    let path := matchable_path raw_path
    if hostport = [] then
      match_downstream_addr_group_host hostport path groups catch_all
    else if hostport.head? = some '[' then
      if bracket_pre hostport = hostport then catch_all
      else if bracket_rest hostport ≠ [] ∧ (bracket_rest hostport).head? ≠ some ':' then
        catch_all
      else
        match_downstream_addr_group_host
          (inp_strlower (bracket_pre hostport ++ [']'])) path groups catch_all
    else if hostport.head? = some ':' then catch_all
    else
      match_downstream_addr_group_host
        (inp_strlower (hostport.takeWhile (fun c => c ≠ ':'))) path groups
        catch_all

/-- Pattern normalization step of `parse_mapping` (shrpx_config.cc:493-507).
`http2::normalize_path` is external to the provided source (spec §4.1 treats
it as an external collaborator), so it is passed in as `np`. -/
def normalize_pattern (np : List Char → List Char) (raw_pattern : List Char) :
    List Char :=
  if '/' ∉ raw_pattern then
    inp_strlower raw_pattern ++ ['/']
  else
    inp_strlower (raw_pattern.takeWhile (fun c => c ≠ '/')) ++
      np (raw_pattern.dropWhile (fun c => c ≠ '/'))

/-- Group insertion step of `parse_mapping` (shrpx_config.cc:508-521):
linear scan for an existing group with the same pattern; append `addr` to
its pool if found, else append a fresh singleton group at the end. -/
def add_to_groups (addr : DownstreamAddr) (pattern : List Char) :
    List DownstreamAddrGroup → List DownstreamAddrGroup
  | [] => [⟨pattern, [addr]⟩]
  | g :: gs =>
    if g.pattern = pattern then ⟨g.pattern, g.addrs ++ [addr]⟩ :: gs
    else g :: add_to_groups addr pattern gs

/-- Embedding of `parse_mapping` (shrpx_config.cc:488-523), over the token
list produced by `parse_config_str_list(src, ':')`. -/
def parse_mapping (np : List Char → List Char) (addr : DownstreamAddr)
    (mapping : List (List Char)) (groups : List DownstreamAddrGroup) :
    List DownstreamAddrGroup :=
  mapping.foldl
    (fun gs raw_pattern => add_to_groups addr (normalize_pattern np raw_pattern) gs)
    groups

/-- The three-conjunct comparison used by the exact branch (and the
no-trailing-slash allowance branch) of `path_match` says exactly that the
pattern (resp. its dropLast) is the host followed by the path. -/
lemma parts_iff_eq_append (P h p : List Char) :
    (P.length = h.length + p.length ∧ h <+: P ∧ p <+: P.drop h.length) ↔
      P = h ++ p := by
  constructor
  · rintro ⟨hlen, hhp, hpp⟩
    have hd : h ++ P.drop h.length = P := List.prefix_iff_eq_append.mp hhp
    have hpe : p = P.drop h.length :=
      hpp.eq_of_length (by rw [List.length_drop]; omega)
    rw [hpe]
    exact hd.symm
  · rintro rfl
    refine ⟨by simp, List.prefix_append h p, ?_⟩
    rw [List.drop_left]

/-- C1 fails as stated: it quantifies over every host string, but for a
host containing `'/'` (here `h = "a/b"`, with pattern `P = "a/"` and path
`p = "/x"`) the claimed condition holds — `P` ends in `'/'` and is a
prefix of `h ++ p = "a/b/x"` — yet `path_match` returns `false`. -/
theorem C1_counterexample :
    path_match ['a', '/'] ['a', '/', 'b'] ['/', 'x'] = false ∧
    (['a', '/'] : List Char).getLast? = some '/' ∧
    (['a', '/'] : List Char) ≠ [] ∧
    ['a', '/'] <+: ['a', '/', 'b'] ++ ['/', 'x'] := by
  refine ⟨by decide, by decide, by decide, ?_⟩
  exact ⟨['b', '/', 'x'], by decide⟩

/-- C1 (amended: the host must not contain `'/'`; the router never passes
a host containing `'/'` to `path_match`, since such hostports are rejected
up front). For a non-empty pattern `P`, a host `h` with no `'/'`, and any
path `p`: if `P` does not end in `'/'`, `path_match P h p` is true iff
`h ++ p` equals `P` exactly; if `P` ends in `'/'`, it is true iff `h ++ p`
has `P` as a prefix, or `h ++ p` equals `P` with its trailing `'/'`
removed. -/
theorem C1_path_match_spec (P h p : List Char) (hP : P ≠ []) (hh : '/' ∉ h) :
    (path_match P h p = true ↔
      if P.getLast? = some '/' then
        P <+: h ++ p ∨ h ++ p = P.dropLast
      else h ++ p = P) := by
  by_cases hsl : P.getLast? = some '/'
  · rw [if_pos hsl]
    unfold path_match
    rw [if_neg (fun hn => hn hsl)]
    by_cases hc : h.length ≤ P.length ∧ h <+: P ∧ P.drop h.length <+: p
    · rw [if_pos hc]
      simp only [true_iff]
      left
      obtain ⟨hle, hpre, htail⟩ := hc
      have hd : h ++ P.drop h.length = P := List.prefix_iff_eq_append.mp hpre
      calc P = h ++ P.drop h.length := hd.symm
        _ <+: h ++ p := ( List.prefix_append_right_inj h).mpr htail
    · rw [if_neg hc, decide_eq_true_iff]
      constructor
      · rintro ⟨hlen, hpre, hpp⟩
        right
        have hP1 : 1 ≤ P.length := List.length_pos.mpr hP
        have hht : h = P.take h.length := List.prefix_iff_eq_take.mp hpre
        have hpt : p = (P.drop h.length).take p.length :=
          List.prefix_iff_eq_take.mp hpp
        rw [List.dropLast_eq_take, show P.length - 1 = h.length + p.length from hlen,
          List.take_add P h.length p.length, ← hht, ← hpt]
      · rintro (hpre | hd)
        · exfalso
          apply hc
          by_cases hlep : h.length ≤ P.length
          · have h1 : h <+: P :=
              List.prefix_of_prefix_length_le ( List.prefix_append h p) hpre hlep
            refine ⟨hlep, h1, ?_⟩
            have hd2 : h ++ P.drop h.length = P := List.prefix_iff_eq_append.mp h1
            have h3 : h ++ P.drop h.length <+: h ++ p := by rw [hd2]; exact hpre
            exact ( List.prefix_append_right_inj h).mp h3
          · push_neg at hlep
            have h2 : P <+: h :=
              List.prefix_of_prefix_length_le hpre ( List.prefix_append h p)
                (le_of_lt hlep)
            have h4 : '/' ∈ P := List.mem_of_mem_getLast? (Option.mem_def.mpr hsl)
            exact absurd (h2.subset h4) hh
        · have hsplit : P = h ++ p ++ [P.getLast hP] := by
            conv_lhs => rw [← List.dropLast_append_getLast hP]
            rw [hd]
          refine ⟨?_, ?_, ?_⟩
          · have hlen := congrArg List.length hd
            simp only [List.length_append, List.length_dropLast] at hlen
            omega
          · rw [hsplit, List.append_assoc]
            exact List.prefix_append _ _
          · rw [hsplit, List.append_assoc, List.drop_left]
            exact List.prefix_append _ _
  · rw [if_neg hsl]
    unfold path_match
    rw [if_pos hsl, decide_eq_true_iff, parts_iff_eq_append]
    exact eq_comm

/-- Closed instance of `C1_path_match_spec` at pattern `"h/d/"`, host
`"h"`, path `"/d"` (the directory-without-trailing-slash allowance). -/
theorem C1_path_match_spec_witness :
    (path_match ['h', '/', 'd', '/'] ['h'] ['/', 'd'] = true ↔
      if (['h', '/', 'd', '/'] : List Char).getLast? = some '/' then
        ['h', '/', 'd', '/'] <+: ['h'] ++ ['/', 'd'] ∨
          ['h'] ++ ['/', 'd'] = (['h', '/', 'd', '/'] : List Char).dropLast
      else ['h'] ++ ['/', 'd'] = ['h', '/', 'd', '/']) :=
  C1_path_match_spec ['h', '/', 'd', '/'] ['h'] ['/', 'd'] (by decide) (by decide)

lemma matchAux_cons_true (host path : List Char) (g : DownstreamAddrGroup)
    (gs : List DownstreamAddrGroup) (i : Nat) (res : Int) (best : Nat)
    (hm : path_match g.pattern host path = true)
    (hc : res = -1 ∨ best < g.pattern.length) :
    matchAux host path (g :: gs) i res best =
      matchAux host path gs (i + 1) (Int.ofNat i) g.pattern.length := by
  simp only [matchAux, hm, if_true]
  rw [if_pos hc]

lemma matchAux_cons_keep (host path : List Char) (g : DownstreamAddrGroup)
    (gs : List DownstreamAddrGroup) (i : Nat) (res : Int) (best : Nat)
    (hm : path_match g.pattern host path = true)
    (hc : ¬(res = -1 ∨ best < g.pattern.length)) :
    matchAux host path (g :: gs) i res best =
      matchAux host path gs (i + 1) res best := by
  simp only [matchAux, hm, if_true]
  rw [if_neg hc]

lemma matchAux_cons_skip (host path : List Char) (g : DownstreamAddrGroup)
    (gs : List DownstreamAddrGroup) (i : Nat) (res : Int) (best : Nat)
    (hm : path_match g.pattern host path = false) :
    matchAux host path (g :: gs) i res best =
      matchAux host path gs (i + 1) res best := by
  simp only [matchAux, hm, Bool.false_eq_true, if_false]

/-- Invariant-style characterisation of the `match` loop on a remaining
suffix `gs` starting at table index `i` with accumulator `res`, `best`:
either the accumulator survives (and then every matching pattern in the
suffix has length at most `best`), or the result is the table index of a
suffix entry that matches, improves on the accumulator, is strictly longer
than every earlier matching suffix entry, and at least as long as every
later one. -/
lemma matchAux_spec (host path : List Char) (gs : List DownstreamAddrGroup) :
    ∀ (i : Nat) (res : Int) (best : Nat),
    (matchAux host path gs i res best = res ∧
      ∀ k (hk : k < gs.length), path_match gs[k].pattern host path = true →
        res ≠ -1 ∧ gs[k].pattern.length ≤ best) ∨
    (∃ k, ∃ hk : k < gs.length,
      matchAux host path gs i res best = Int.ofNat (i + k) ∧
      path_match gs[k].pattern host path = true ∧
      (res = -1 ∨ best < gs[k].pattern.length) ∧
      (∀ j (hj : j < gs.length), j < k →
        path_match gs[j].pattern host path = true →
        gs[j].pattern.length < gs[k].pattern.length) ∧
      (∀ j (hj : j < gs.length), k < j →
        path_match gs[j].pattern host path = true →
        gs[j].pattern.length ≤ gs[k].pattern.length)) := by
  induction gs with
  | nil =>
    intro i res best
    left
    exact ⟨rfl, fun k hk _ => absurd hk (Nat.not_lt_zero k)⟩
  | cons g gs ih =>
    intro i res best
    by_cases hm : path_match g.pattern host path = true
    · by_cases hc : res = -1 ∨ best < g.pattern.length
      · rw [matchAux_cons_true host path g gs i res best hm hc]
        rcases ih (i + 1) (Int.ofNat i) g.pattern.length with
          ⟨heq, hall⟩ | ⟨k, hk, heq, hmk, hup, hlt, hle⟩
        · right
          refine ⟨0, Nat.succ_pos _, ?_, by simpa using hm, hc, ?_, ?_⟩
          · rw [heq]; simp
          · intro j hj hj0 _; omega
          · intro j hj hjk hmj
            obtain ⟨j', rfl⟩ : ∃ j', j = j' + 1 := ⟨j - 1, by omega⟩
            have h1 := hall j' (by simpa using hj) (by simpa using hmj)
            simpa using h1.2
        · right
          have hgk : g.pattern.length < gs[k].pattern.length :=
            hup.resolve_left (by simp only [Int.ofNat_eq_natCast]; omega)
          refine ⟨k + 1, by simpa using Nat.succ_lt_succ hk, ?_, by simpa using hmk,
            ?_, ?_, ?_⟩
          · rw [heq]; congr 1; omega
          · rcases hc with h1 | h2
            · exact Or.inl h1
            · exact Or.inr (by simpa using lt_trans h2 hgk)
          · intro j hj hjk hmj
            cases j with
            | zero => simpa using hgk
            | succ j' =>
              have := hlt j' (by simpa using hj) (by omega) (by simpa using hmj)
              simpa using this
          · intro j hj hjk hmj
            obtain ⟨j', rfl⟩ : ∃ j', j = j' + 1 := ⟨j - 1, by omega⟩
            have := hle j' (by simpa using hj) (by omega) (by simpa using hmj)
            simpa using this
      · rw [matchAux_cons_keep host path g gs i res best hm hc]
        push_neg at hc
        rcases ih (i + 1) res best with
          ⟨heq, hall⟩ | ⟨k, hk, heq, hmk, hup, hlt, hle⟩
        · left
          refine ⟨heq, ?_⟩
          intro k hk' hmk'
          cases k with
          | zero => exact ⟨hc.1, by simpa using hc.2⟩
          | succ k' =>
            have := hall k' (by simpa using hk') (by simpa using hmk')
            exact ⟨this.1, by simpa using this.2⟩
        · right
          have hb : best < gs[k].pattern.length := hup.resolve_left hc.1
          refine ⟨k + 1, by simpa using Nat.succ_lt_succ hk, ?_, by simpa using hmk,
            Or.inr (by simpa using hb), ?_, ?_⟩
          · rw [heq]; congr 1; omega
          · intro j hj hjk hmj
            cases j with
            | zero => simpa using lt_of_le_of_lt hc.2 hb
            | succ j' =>
              have := hlt j' (by simpa using hj) (by omega) (by simpa using hmj)
              simpa using this
          · intro j hj hjk hmj
            obtain ⟨j', rfl⟩ : ∃ j', j = j' + 1 := ⟨j - 1, by omega⟩
            have := hle j' (by simpa using hj) (by omega) (by simpa using hmj)
            simpa using this
    · have hmf : path_match g.pattern host path = false := Bool.eq_false_iff.mpr hm
      rw [matchAux_cons_skip host path g gs i res best hmf]
      rcases ih (i + 1) res best with
        ⟨heq, hall⟩ | ⟨k, hk, heq, hmk, hup, hlt, hle⟩
      · left
        refine ⟨heq, ?_⟩
        intro k hk' hmk'
        cases k with
        | zero => exact absurd (by simpa using hmk') hm
        | succ k' =>
          have := hall k' (by simpa using hk') (by simpa using hmk')
          exact ⟨this.1, by simpa using this.2⟩
      · right
        refine ⟨k + 1, by simpa using Nat.succ_lt_succ hk, ?_, by simpa using hmk,
          hup, ?_, ?_⟩
        · rw [heq]; congr 1; omega
        · intro j hj hjk hmj
          cases j with
          | zero => exact absurd (by simpa using hmj) hm
          | succ j' =>
            have := hlt j' (by simpa using hj) (by omega) (by simpa using hmj)
            simpa using this
        · intro j hj hjk hmj
          obtain ⟨j', rfl⟩ : ∃ j', j = j' + 1 := ⟨j - 1, by omega⟩
          have := hle j' (by simpa using hj) (by omega) (by simpa using hmj)
          simpa using this

/-- C2: `match` scans the groups in insertion order and returns `-1`
exactly when no group's pattern matches; when it returns a non-negative
index `i`, group `i` matches, its pattern length is maximal among all
matching groups, and every earlier-inserted matching group is strictly
shorter (so on length ties the earliest-inserted matching group wins). -/
theorem C2_match_spec (host path : List Char) (groups : List DownstreamAddrGroup) :
    (matchGroups host path groups = -1 ↔
      ∀ k (hk : k < groups.length), path_match groups[k].pattern host path = false) ∧
    (∀ i : Nat, matchGroups host path groups = Int.ofNat i →
      ∃ hi : i < groups.length,
        path_match groups[i].pattern host path = true ∧
        (∀ j (hj : j < groups.length),
          path_match groups[j].pattern host path = true →
          groups[j].pattern.length ≤ groups[i].pattern.length) ∧
        (∀ j (hj : j < groups.length), j < i →
          path_match groups[j].pattern host path = true →
          groups[j].pattern.length < groups[i].pattern.length)) := by
  rcases matchAux_spec host path groups 0 (-1) 0 with
    ⟨heq, hall⟩ | ⟨k, hk, heq, hmk, _, hlt, hle⟩
  · constructor
    · rw [matchGroups, heq]
      constructor
      · intro _ k hk
        by_cases hmk : path_match groups[k].pattern host path = true
        · exact absurd rfl (hall k hk hmk).1
        · exact Bool.eq_false_iff.mpr hmk
      · intro _; rfl
    · intro i hi
      rw [matchGroups, heq] at hi
      exact absurd hi (by simp only [Int.ofNat_eq_natCast]; omega)
  · constructor
    · rw [matchGroups, heq]
      constructor
      · intro habs
        exact absurd habs (by simp only [Int.ofNat_eq_natCast]; omega)
      · intro hforall
        have := hforall k hk
        rw [hmk] at this
        exact absurd this (by simp)
    · intro i hi
      rw [matchGroups, heq] at hi
      have hik : i = k := by simp only [Int.ofNat_eq_natCast] at hi; omega
      subst hik
      refine ⟨hk, hmk, ?_, ?_⟩
      · intro j hj hmj
        rcases lt_trichotomy j i with h | h | h
        · exact le_of_lt (hlt j hj h hmj)
        · subst h; exact le_refl _
        · exact hle j hj h hmj
      · intro j hj hjk hmj
        exact hlt j hj hjk hmj

/-- Closed instance of `C2_match_spec`: two patterns `"/"` and `"/a"`
both match path `"/a"`; the longer one (index 1) wins. -/
theorem C2_match_spec_witness :
    ((matchGroups [] ['/', 'a'] [⟨['/'], []⟩, ⟨['/', 'a'], []⟩] = -1 ↔
      ∀ k (hk : k < ([⟨['/'], []⟩, ⟨['/', 'a'], []⟩] : List DownstreamAddrGroup).length),
        path_match ([⟨['/'], []⟩, ⟨['/', 'a'], []⟩] : List DownstreamAddrGroup)[k].pattern
          [] ['/', 'a'] = false) ∧
    (∀ i : Nat,
      matchGroups [] ['/', 'a'] [⟨['/'], []⟩, ⟨['/', 'a'], []⟩] = Int.ofNat i →
      ∃ hi : i < ([⟨['/'], []⟩, ⟨['/', 'a'], []⟩] : List DownstreamAddrGroup).length,
        path_match ([⟨['/'], []⟩, ⟨['/', 'a'], []⟩] : List DownstreamAddrGroup)[i].pattern
          [] ['/', 'a'] = true ∧
        (∀ j (hj : j < ([⟨['/'], []⟩, ⟨['/', 'a'], []⟩] : List DownstreamAddrGroup).length),
          path_match ([⟨['/'], []⟩, ⟨['/', 'a'], []⟩] : List DownstreamAddrGroup)[j].pattern
            [] ['/', 'a'] = true →
          ([⟨['/'], []⟩, ⟨['/', 'a'], []⟩] : List DownstreamAddrGroup)[j].pattern.length ≤
            ([⟨['/'], []⟩, ⟨['/', 'a'], []⟩] : List DownstreamAddrGroup)[i].pattern.length) ∧
        (∀ j (hj : j < ([⟨['/'], []⟩, ⟨['/', 'a'], []⟩] : List DownstreamAddrGroup).length),
          j < i →
          path_match ([⟨['/'], []⟩, ⟨['/', 'a'], []⟩] : List DownstreamAddrGroup)[j].pattern
            [] ['/', 'a'] = true →
          ([⟨['/'], []⟩, ⟨['/', 'a'], []⟩] : List DownstreamAddrGroup)[j].pattern.length <
            ([⟨['/'], []⟩, ⟨['/', 'a'], []⟩] : List DownstreamAddrGroup)[i].pattern.length))) :=
  C2_match_spec [] ['/', 'a'] [⟨['/'], []⟩, ⟨['/', 'a'], []⟩]

/-- C3: when the matchable path is non-empty and starts with `'/'`, the
router first attempts a match with `(host, path)` and returns a matching
group's index; otherwise it attempts `("", path)` (host-agnostic) and
returns a matching group's index; otherwise it returns `catch_all`. The
function is total by construction (it always yields an index). -/
theorem C3_tiered_match (host path : List Char) (groups : List DownstreamAddrGroup)
    (catch_all : Nat) (h1 : path ≠ []) (h2 : path.head? = some '/') :
    (∀ i : Nat, matchGroups host path groups = Int.ofNat i →
      match_downstream_addr_group_host host path groups catch_all = i) ∧
    (matchGroups host path groups = -1 →
      (∀ i : Nat, matchGroups [] path groups = Int.ofNat i →
        match_downstream_addr_group_host host path groups catch_all = i) ∧
      (matchGroups [] path groups = -1 →
        match_downstream_addr_group_host host path groups catch_all = catch_all)) := by
  have hcond : ¬(path = [] ∨ path.head? ≠ some '/') := by
    push_neg
    exact ⟨h1, h2⟩
  constructor
  · intro i hi
    simp only [match_downstream_addr_group_host, if_neg hcond, hi]
    rw [if_pos (by simp only [Int.ofNat_eq_natCast]; omega)]
    simp [Int.ofNat_eq_natCast]
  · intro hno
    constructor
    · intro i hi
      simp only [match_downstream_addr_group_host, if_neg hcond, hno, hi]
      rw [if_neg (by simp), if_pos (by simp only [Int.ofNat_eq_natCast]; omega)]
      simp [Int.ofNat_eq_natCast]
    · intro hno2
      simp only [match_downstream_addr_group_host, if_neg hcond, hno, hno2]
      simp

/-- Closed instance of `C3_tiered_match` at host `""`, path `"/"`, one
group with pattern `"/"`, catch-all index `7`. -/
theorem C3_tiered_match_witness :
    (∀ i : Nat, matchGroups [] ['/'] [⟨['/'], []⟩] = Int.ofNat i →
      match_downstream_addr_group_host [] ['/'] [⟨['/'], []⟩] 7 = i) ∧
    (matchGroups [] ['/'] [⟨['/'], []⟩] = -1 →
      (∀ i : Nat, matchGroups [] ['/'] [⟨['/'], []⟩] = Int.ofNat i →
        match_downstream_addr_group_host [] ['/'] [⟨['/'], []⟩] 7 = i) ∧
      (matchGroups [] ['/'] [⟨['/'], []⟩] = -1 →
        match_downstream_addr_group_host [] ['/'] [⟨['/'], []⟩] 7 = 7)) :=
  C3_tiered_match [] ['/'] [⟨['/'], []⟩] 7 (by decide) (by decide)

/-- C4: when the matchable path is empty or does not start with `'/'`,
the router matches only `(host, "/")`: a matching group's index is
returned, else `catch_all` — the actual path and the empty-host fallback
are never consulted (the result is fully determined by
`matchGroups host ["/"]`). -/
theorem C4_authority_form (host path : List Char) (groups : List DownstreamAddrGroup)
    (catch_all : Nat) (h : path = [] ∨ path.head? ≠ some '/') :
    (∀ i : Nat, matchGroups host ['/'] groups = Int.ofNat i →
      match_downstream_addr_group_host host path groups catch_all = i) ∧
    (matchGroups host ['/'] groups = -1 →
      match_downstream_addr_group_host host path groups catch_all = catch_all) := by
  constructor
  · intro i hi
    simp only [match_downstream_addr_group_host, if_pos h, hi]
    rw [if_pos (by simp only [Int.ofNat_eq_natCast]; omega)]
    simp [Int.ofNat_eq_natCast]
  · intro hno
    simp only [match_downstream_addr_group_host, if_pos h, hno]
    simp

/-- Closed instance of `C4_authority_form` at the empty path with one
group with pattern `"/"`, catch-all index `3`. -/
theorem C4_authority_form_witness :
    (∀ i : Nat, matchGroups ['h'] ['/'] [⟨['/'], []⟩] = Int.ofNat i →
      match_downstream_addr_group_host ['h'] [] [⟨['/'], []⟩] 3 = i) ∧
    (matchGroups ['h'] ['/'] [⟨['/'], []⟩] = -1 →
      match_downstream_addr_group_host ['h'] [] [⟨['/'], []⟩] 3 = 3) :=
  C4_authority_form ['h'] [] [⟨['/'], []⟩] 3 (by decide)

/-- C5: the path span the router matches against is `raw_path` truncated
at the first `'?'` that occurs before the first `'#'` (`findIdx` returns
the length when the character is absent, so: no such `'?'` → truncated at
the first `'#'`; neither present → the whole string; a `'?'` after the
first `'#'` does not truncate). -/
theorem C5_matchable_path_spec (raw : List Char) :
    matchable_path raw =
      raw.take ((raw.take (raw.findIdx (fun c => c == '#'))).findIdx
        (fun c => c == '?')) := by
  induction raw with
  | nil => rfl
  | cons c t ih =>
    by_cases hh : c = '#'
    · subst hh
      simp [matchable_path, List.findIdx_cons]
    · by_cases hq : c = '?'
      · subst hq
        simp [matchable_path, List.findIdx_cons, List.takeWhile]
      · have hbh : (c == '#') = false := by simp [hh]
        have hbq : (c == '?') = false := by simp [hq]
        have l1 : matchable_path (c :: t) = c :: matchable_path t := by
          unfold matchable_path
          rw [List.takeWhile_cons, if_pos (by simp [hh]), List.takeWhile_cons,
            if_pos (by simp [hq])]
        have r1 : (c :: t).findIdx (fun x => x == '#') =
            t.findIdx (fun x => x == '#') + 1 := by
          rw [List.findIdx_cons, hbh, cond_false]
        have r2 : ∀ f : Nat, (c :: t.take f).findIdx (fun x => x == '?') =
            (t.take f).findIdx (fun x => x == '?') + 1 := by
          intro f
          rw [List.findIdx_cons, hbq, cond_false]
        rw [l1, r1, List.take_succ_cons, r2, List.take_succ_cons, ih]

/-- C6: a hostport containing `'/'` resolves to the catch-all index
immediately, regardless of the path and of the group table. -/
theorem C6_slash_hostport (hostport raw : List Char)
    (groups : List DownstreamAddrGroup) (catch_all : Nat) (h : '/' ∈ hostport) :
    match_downstream_addr_group hostport raw groups catch_all = catch_all := by
  simp only [match_downstream_addr_group, if_pos h]

/-- Closed instance of `C6_slash_hostport`: hostport `"a/"` resolves to
the catch-all even though a group's pattern equals host ++ path. -/
theorem C6_slash_hostport_witness :
    match_downstream_addr_group ['a', '/'] ['/', 'x'] [⟨['a', '/', '/', 'x'], []⟩] 4 = 4 :=
  C6_slash_hostport ['a', '/'] ['/', 'x'] [⟨['a', '/', '/', 'x'], []⟩] 4 (by decide)

/-- C7 fails as stated: for the non-empty hostport `"[a/b]"` (starting
with `'['`, containing `']'` with nothing after it) the claim's
extraction clause says the router proceeds with host `"[a/b]"` — which
would match the group with pattern `"[a/b]/x"` at index 0 — but the
router rejects any hostport containing `'/'` up front and returns the
catch-all index 5. -/
theorem C7_counterexample :
    (['[', 'a', '/', 'b', ']'] : List Char) ≠ [] ∧
    (['[', 'a', '/', 'b', ']'] : List Char).head? = some '[' ∧
    ']' ∈ (['[', 'a', '/', 'b', ']'] : List Char) ∧
    bracket_rest ['[', 'a', '/', 'b', ']'] = [] ∧
    match_downstream_addr_group ['[', 'a', '/', 'b', ']'] ['/', 'x']
      [⟨['[', 'a', '/', 'b', ']', '/', 'x'], []⟩] 5 = 5 ∧
    match_downstream_addr_group_host (inp_strlower ['[', 'a', '/', 'b', ']'])
      (matchable_path ['/', 'x']) [⟨['[', 'a', '/', 'b', ']', '/', 'x'], []⟩] 5 = 0 := by
  decide

/-- C7 (amended: the extraction clauses additionally require the hostport
not to contain `'/'`; such hostports are rejected to the catch-all before
any host extraction).  For a non-empty hostport starting with `'['`:
no `']'`, or a character directly after the first `']'` other than `':'`,
resolves to the catch-all; otherwise the router proceeds with the
lowercased bracketed literal including both brackets.  For a non-empty
hostport not starting with `'['`: a leading `':'` resolves to the
catch-all; otherwise the router proceeds with the lowercased segment
before the first `':'` (the whole string when `':'` is absent). -/
theorem C7_host_extraction (hostport raw : List Char)
    (groups : List DownstreamAddrGroup) (catch_all : Nat) (hne : hostport ≠ []) :
    (hostport.head? = some '[' →
      ((']' ∉ hostport →
          match_downstream_addr_group hostport raw groups catch_all = catch_all) ∧
        (']' ∈ hostport → bracket_rest hostport ≠ [] →
          (bracket_rest hostport).head? ≠ some ':' →
          match_downstream_addr_group hostport raw groups catch_all = catch_all) ∧
        ('/' ∉ hostport → ']' ∈ hostport →
          (bracket_rest hostport = [] ∨ (bracket_rest hostport).head? = some ':') →
          match_downstream_addr_group hostport raw groups catch_all =
            match_downstream_addr_group_host
              (inp_strlower (bracket_pre hostport ++ [']']))
              (matchable_path raw) groups catch_all))) ∧
    (hostport.head? ≠ some '[' →
      ((hostport.head? = some ':' →
          match_downstream_addr_group hostport raw groups catch_all = catch_all) ∧
        ('/' ∉ hostport → hostport.head? ≠ some ':' →
          match_downstream_addr_group hostport raw groups catch_all =
            match_downstream_addr_group_host
              (inp_strlower (hostport.takeWhile (fun c => c ≠ ':')))
              (matchable_path raw) groups catch_all))) := by
  constructor
  · intro hbr
    refine ⟨?_, ?_, ?_⟩
    · intro hnomem
      by_cases hslash : '/' ∈ hostport
      · simp only [match_downstream_addr_group, if_pos hslash]
      · have hpre : bracket_pre hostport = hostport := by
          unfold bracket_pre
          rw [List.takeWhile_eq_self_iff]
          intro a ha
          simp only [decide_eq_true_eq]
          exact fun he => hnomem (he ▸ ha)
        simp only [match_downstream_addr_group, if_neg hslash, if_neg hne, hbr,
          eq_self_iff_true, if_true, if_pos hpre]
    · intro hmem hrne hrcolon
      by_cases hslash : '/' ∈ hostport
      · simp only [match_downstream_addr_group, if_pos hslash]
      · have hpre : bracket_pre hostport ≠ hostport := by
          unfold bracket_pre
          intro he
          have := List.takeWhile_eq_self_iff.mp he ']' hmem
          simp at this
        simp only [match_downstream_addr_group, if_neg hslash, if_neg hne, hbr,
          eq_self_iff_true, if_true, if_neg hpre, if_pos (And.intro hrne hrcolon)]
    · intro hslash hmem hrest
      have hpre : bracket_pre hostport ≠ hostport := by
        unfold bracket_pre
        intro he
        have := List.takeWhile_eq_self_iff.mp he ']' hmem
        simp at this
      have hcond : ¬(bracket_rest hostport ≠ [] ∧
          (bracket_rest hostport).head? ≠ some ':') := by
        rcases hrest with h | h
        · exact fun hc => hc.1 h
        · exact fun hc => hc.2 h
      simp only [match_downstream_addr_group, if_neg hslash, if_neg hne, hbr,
        eq_self_iff_true, if_true, if_neg hpre, if_neg hcond]
  · intro hnbr
    constructor
    · intro hcolon
      by_cases hslash : '/' ∈ hostport
      · simp only [match_downstream_addr_group, if_pos hslash]
      · simp only [match_downstream_addr_group, if_neg hslash, if_neg hne,
          if_neg hnbr, hcolon, eq_self_iff_true, if_true]
        rw [if_neg (show ¬((some ':' : Option Char) = some '[') by decide)]
    · intro hslash hncolon
      simp only [match_downstream_addr_group, if_neg hslash, if_neg hne,
        if_neg hnbr, if_neg hncolon]

/-- Closed instance of `C7_host_extraction` at hostport `"[::1]:8080"`
(spec scenario 4). -/
theorem C7_host_extraction_witness :
    ((['[', ':', ':', '1', ']', ':', '8', '0', '8', '0'] : List Char).head? = some '[' →
      ((']' ∉ (['[', ':', ':', '1', ']', ':', '8', '0', '8', '0'] : List Char) →
          match_downstream_addr_group ['[', ':', ':', '1', ']', ':', '8', '0', '8', '0']
            ['/'] [⟨['[', ':', ':', '1', ']', '/'], []⟩] 9 = 9) ∧
        (']' ∈ (['[', ':', ':', '1', ']', ':', '8', '0', '8', '0'] : List Char) →
          bracket_rest ['[', ':', ':', '1', ']', ':', '8', '0', '8', '0'] ≠ [] →
          (bracket_rest ['[', ':', ':', '1', ']', ':', '8', '0', '8', '0']).head? ≠ some ':' →
          match_downstream_addr_group ['[', ':', ':', '1', ']', ':', '8', '0', '8', '0']
            ['/'] [⟨['[', ':', ':', '1', ']', '/'], []⟩] 9 = 9) ∧
        ('/' ∉ (['[', ':', ':', '1', ']', ':', '8', '0', '8', '0'] : List Char) →
          ']' ∈ (['[', ':', ':', '1', ']', ':', '8', '0', '8', '0'] : List Char) →
          (bracket_rest ['[', ':', ':', '1', ']', ':', '8', '0', '8', '0'] = [] ∨
            (bracket_rest ['[', ':', ':', '1', ']', ':', '8', '0', '8', '0']).head? = some ':') →
          match_downstream_addr_group ['[', ':', ':', '1', ']', ':', '8', '0', '8', '0']
            ['/'] [⟨['[', ':', ':', '1', ']', '/'], []⟩] 9 =
            match_downstream_addr_group_host
              (inp_strlower (bracket_pre ['[', ':', ':', '1', ']', ':', '8', '0', '8', '0'] ++ [']']))
              (matchable_path ['/']) [⟨['[', ':', ':', '1', ']', '/'], []⟩] 9))) ∧
    ((['[', ':', ':', '1', ']', ':', '8', '0', '8', '0'] : List Char).head? ≠ some '[' →
      (((['[', ':', ':', '1', ']', ':', '8', '0', '8', '0'] : List Char).head? = some ':' →
          match_downstream_addr_group ['[', ':', ':', '1', ']', ':', '8', '0', '8', '0']
            ['/'] [⟨['[', ':', ':', '1', ']', '/'], []⟩] 9 = 9) ∧
        ('/' ∉ (['[', ':', ':', '1', ']', ':', '8', '0', '8', '0'] : List Char) →
          (['[', ':', ':', '1', ']', ':', '8', '0', '8', '0'] : List Char).head? ≠ some ':' →
          match_downstream_addr_group ['[', ':', ':', '1', ']', ':', '8', '0', '8', '0']
            ['/'] [⟨['[', ':', ':', '1', ']', '/'], []⟩] 9 =
            match_downstream_addr_group_host
              (inp_strlower ((['[', ':', ':', '1', ']', ':', '8', '0', '8', '0'] : List Char).takeWhile
                (fun c => c ≠ ':')))
              (matchable_path ['/']) [⟨['[', ':', ':', '1', ']', '/'], []⟩] 9))) :=
  C7_host_extraction ['[', ':', ':', '1', ']', ':', '8', '0', '8', '0'] ['/']
    [⟨['[', ':', ':', '1', ']', '/'], []⟩] 9 (by decide)

/-- C8: a raw token without `'/'` normalizes to its lowercased form plus
`"/"` (the empty token to `"/"`); a token with `'/'` normalizes to the
lowercased host part (before the first `'/'`) followed by the
`normalize_path`-processed path part, which is not lowercased; and the
pattern built from `"Example.COM/a"` matches request host
`"example.com"` (whenever the external path normalizer leaves `"/a"`
unchanged), i.e. host comparison is case-insensitive given that the
router lowercases the request host before matching. -/
theorem C8_normalize_pattern_spec (np : List Char → List Char) :
    (∀ tok : List Char, '/' ∉ tok →
      normalize_pattern np tok = inp_strlower tok ++ ['/']) ∧
    normalize_pattern np [] = ['/'] ∧
    (∀ tok : List Char, '/' ∈ tok →
      normalize_pattern np tok =
        inp_strlower (tok.takeWhile (fun c => c ≠ '/')) ++
          np (tok.dropWhile (fun c => c ≠ '/'))) ∧
    (np ['/', 'a'] = ['/', 'a'] →
      path_match
        (normalize_pattern np
          ['E', 'x', 'a', 'm', 'p', 'l', 'e', '.', 'C', 'O', 'M', '/', 'a'])
        ['e', 'x', 'a', 'm', 'p', 'l', 'e', '.', 'c', 'o', 'm']
        ['/', 'a'] = true) := by
  refine ⟨?_, ?_, ?_, ?_⟩
  · intro tok h
    unfold normalize_pattern
    rw [if_pos h]
  · unfold normalize_pattern
    rw [if_pos (by decide)]
    rfl
  · intro tok h
    unfold normalize_pattern
    rw [if_neg (not_not.mpr h)]
  · intro hnp
    unfold normalize_pattern
    rw [if_neg (by decide)]
    rw [show (['E', 'x', 'a', 'm', 'p', 'l', 'e', '.', 'C', 'O', 'M', '/', 'a'].takeWhile
        (fun c => c ≠ '/')) = ['E', 'x', 'a', 'm', 'p', 'l', 'e', '.', 'C', 'O', 'M']
      from by decide]
    rw [show (['E', 'x', 'a', 'm', 'p', 'l', 'e', '.', 'C', 'O', 'M', '/', 'a'].dropWhile
        (fun c => c ≠ '/')) = ['/', 'a'] from by decide]
    rw [hnp]
    decide

/-- Closed instance of `C8_normalize_pattern_spec` with the identity path
normalizer. -/
theorem C8_normalize_pattern_spec_witness :
    (∀ tok : List Char, '/' ∉ tok →
      normalize_pattern id tok = inp_strlower tok ++ ['/']) ∧
    normalize_pattern id [] = ['/'] ∧
    (∀ tok : List Char, '/' ∈ tok →
      normalize_pattern id tok =
        inp_strlower (tok.takeWhile (fun c => c ≠ '/')) ++
          id (tok.dropWhile (fun c => c ≠ '/'))) ∧
    (id ['/', 'a'] = ['/', 'a'] →
      path_match
        (normalize_pattern id
          ['E', 'x', 'a', 'm', 'p', 'l', 'e', '.', 'C', 'O', 'M', '/', 'a'])
        ['e', 'x', 'a', 'm', 'p', 'l', 'e', '.', 'c', 'o', 'm']
        ['/', 'a'] = true) :=
  C8_normalize_pattern_spec id

/-- C10: the empty hostport is not rejected to the catch-all: the router
runs the normal tiered match with host `""` (the hostport itself, with no
lowercasing or extraction), so host-agnostic patterns can still match,
and when the matchable path starts with `'/'` the catch-all is returned
only if no pattern matches `("", path)`. -/
theorem C10_empty_hostport (raw : List Char) (groups : List DownstreamAddrGroup)
    (catch_all : Nat) :
    (match_downstream_addr_group [] raw groups catch_all =
      match_downstream_addr_group_host [] (matchable_path raw) groups catch_all) ∧
    ((matchable_path raw).head? = some '/' →
      (∀ i : Nat, matchGroups [] (matchable_path raw) groups = Int.ofNat i →
        match_downstream_addr_group [] raw groups catch_all = i) ∧
      (matchGroups [] (matchable_path raw) groups = -1 →
        match_downstream_addr_group [] raw groups catch_all = catch_all)) := by
  have h1 : match_downstream_addr_group [] raw groups catch_all =
      match_downstream_addr_group_host [] (matchable_path raw) groups catch_all := by
    unfold match_downstream_addr_group
    rw [if_neg (by simp), if_pos rfl]
  refine ⟨h1, ?_⟩
  intro hhead
  have hne : matchable_path raw ≠ [] := by
    intro he
    rw [he] at hhead
    simp at hhead
  have hcond : ¬(matchable_path raw = [] ∨ (matchable_path raw).head? ≠ some '/') := by
    push_neg
    exact ⟨hne, hhead⟩
  constructor
  · intro i hi
    rw [h1]
    simp only [match_downstream_addr_group_host, if_neg hcond, hi]
    rw [if_pos (by simp only [Int.ofNat_eq_natCast]; omega)]
    simp [Int.ofNat_eq_natCast]
  · intro hno
    rw [h1]
    simp only [match_downstream_addr_group_host, if_neg hcond, hno]
    simp

/-- Closed instance of `C10_empty_hostport`: a host-agnostic pattern
`"/a"` matches the empty-authority request for `"/a?q"`. -/
theorem C10_empty_hostport_witness :
    (match_downstream_addr_group [] ['/', 'a', '?', 'q'] [⟨['/', 'a'], []⟩] 3 =
      match_downstream_addr_group_host []
        (matchable_path ['/', 'a', '?', 'q']) [⟨['/', 'a'], []⟩] 3) ∧
    ((matchable_path ['/', 'a', '?', 'q']).head? = some '/' →
      (∀ i : Nat,
        matchGroups [] (matchable_path ['/', 'a', '?', 'q']) [⟨['/', 'a'], []⟩] =
          Int.ofNat i →
        match_downstream_addr_group [] ['/', 'a', '?', 'q'] [⟨['/', 'a'], []⟩] 3 = i) ∧
      (matchGroups [] (matchable_path ['/', 'a', '?', 'q']) [⟨['/', 'a'], []⟩] = -1 →
        match_downstream_addr_group [] ['/', 'a', '?', 'q'] [⟨['/', 'a'], []⟩] 3 = 3)) :=
  C10_empty_hostport ['/', 'a', '?', 'q'] [⟨['/', 'a'], []⟩] 3

lemma parse_mapping_cons (np : List Char → List Char) (addr : DownstreamAddr)
    (tok : List Char) (toks : List (List Char)) (groups : List DownstreamAddrGroup) :
    parse_mapping np addr (tok :: toks) groups =
      parse_mapping np addr toks
        (add_to_groups addr (normalize_pattern np tok) groups) := rfl

/-- Inserting an address under a pattern that already names a (unique)
group appends the address to exactly that group's pool; every other
group, and every pattern, is unchanged in place. -/
lemma add_to_groups_mem (addr : DownstreamAddr) (pat : List Char)
    (groups : List DownstreamAddrGroup)
    (hdist : groups.Pairwise (fun a b => a.pattern ≠ b.pattern))
    (hmem : pat ∈ groups.map DownstreamAddrGroup.pattern) :
    add_to_groups addr pat groups =
      groups.map (fun g =>
        if g.pattern = pat then ⟨g.pattern, g.addrs ++ [addr]⟩ else g) := by
  induction groups with
  | nil => simp at hmem
  | cons g gs ih =>
    rw [List.pairwise_cons] at hdist
    by_cases hg : g.pattern = pat
    · unfold add_to_groups
      rw [if_pos hg]
      simp only [List.map_cons, if_pos hg]
      congr 1
      have hnone : ∀ g' ∈ gs, ¬(g'.pattern = pat) :=
        fun g' hg' he => hdist.1 g' hg' (hg.trans he.symm)
      have h2 : gs.map (fun g' =>
          if g'.pattern = pat then
            (⟨g'.pattern, g'.addrs ++ [addr]⟩ : DownstreamAddrGroup)
          else g') = gs := by
        conv_rhs => rw [← List.map_id gs]
        apply List.map_congr_left
        intro a ha
        rw [if_neg (hnone a ha)]
        rfl
      rw [h2]
    · unfold add_to_groups
      rw [if_neg hg]
      simp only [List.map_cons, if_neg hg]
      congr 1
      apply ih hdist.2
      simp only [List.map_cons, List.mem_cons] at hmem
      rcases hmem with h | h
      · exact absurd h.symm hg
      · exact h

/-- Inserting an address under a pattern naming no existing group appends
a fresh singleton group at the end of the table. -/
lemma add_to_groups_new (addr : DownstreamAddr) (pat : List Char)
    (groups : List DownstreamAddrGroup)
    (hmem : pat ∉ groups.map DownstreamAddrGroup.pattern) :
    add_to_groups addr pat groups = groups ++ [⟨pat, [addr]⟩] := by
  induction groups with
  | nil => rfl
  | cons g gs ih =>
    simp only [List.map_cons, List.mem_cons, not_or] at hmem
    unfold add_to_groups
    rw [if_neg (fun he => hmem.1 he.symm), List.cons_append]
    congr 1
    exact ih hmem.2

/-- One insertion step preserves pairwise-distinct patterns. -/
lemma add_to_groups_pairwise (addr : DownstreamAddr) (pat : List Char)
    (groups : List DownstreamAddrGroup)
    (hdist : groups.Pairwise (fun a b => a.pattern ≠ b.pattern)) :
    (add_to_groups addr pat groups).Pairwise (fun a b => a.pattern ≠ b.pattern) := by
  by_cases hmem : pat ∈ groups.map DownstreamAddrGroup.pattern
  · rw [add_to_groups_mem addr pat groups hdist hmem]
    rw [List.pairwise_map]
    have hp : ∀ x : DownstreamAddrGroup,
        ((if x.pattern = pat then
            (⟨x.pattern, x.addrs ++ [addr]⟩ : DownstreamAddrGroup)
          else x) : DownstreamAddrGroup).pattern = x.pattern := by
      intro x
      by_cases h : x.pattern = pat
      · rw [if_pos h]
      · rw [if_neg h]
    apply hdist.imp
    intro a b h
    rw [hp a, hp b]
    exact h
  · rw [add_to_groups_new addr pat groups hmem, List.pairwise_append]
    refine ⟨hdist, List.pairwise_singleton _ _, ?_⟩
    intro a ha b hb
    simp only [List.mem_singleton] at hb
    subst hb
    intro he
    have he2 : a.pattern = pat := he
    rw [← he2] at hmem
    exact hmem (List.mem_map_of_mem DownstreamAddrGroup.pattern ha)

/-- One insertion step keeps the existing pattern sequence as a prefix. -/
lemma add_to_groups_pattern_pre (addr : DownstreamAddr) (pat : List Char)
    (groups : List DownstreamAddrGroup) :
    groups.map DownstreamAddrGroup.pattern <+:
      (add_to_groups addr pat groups).map DownstreamAddrGroup.pattern := by
  induction groups with
  | nil => exact List.nil_prefix
  | cons g gs ih =>
    unfold add_to_groups
    by_cases hg : g.pattern = pat
    · rw [if_pos hg]
      simp only [List.map_cons]
      exact List.prefix_rfl
    · rw [if_neg hg]
      simp only [List.map_cons]
      exact List.cons_prefix_cons.mpr ⟨rfl, ih⟩

/-- C9: `parse_mapping` preserves the invariant that group patterns are
pairwise distinct, and never removes, reorders or renames an existing
group (the old pattern sequence stays a prefix of the new one); each
token whose normalized pattern already names a group appends the address
to exactly that group's pool, each new pattern appends a fresh singleton
group at the end; and two directives with the same normalized pattern
produce one group holding both addresses in directive order. -/
theorem C9_parse_mapping_spec (np : List Char → List Char)
    (addr addr2 : DownstreamAddr) (pat : List Char)
    (mapping : List (List Char)) (groups : List DownstreamAddrGroup)
    (hdist : groups.Pairwise (fun a b => a.pattern ≠ b.pattern)) :
    (parse_mapping np addr mapping groups).Pairwise
        (fun a b => a.pattern ≠ b.pattern) ∧
    (groups.map DownstreamAddrGroup.pattern <+:
      (parse_mapping np addr mapping groups).map DownstreamAddrGroup.pattern) ∧
    (pat ∈ groups.map DownstreamAddrGroup.pattern →
      add_to_groups addr pat groups =
        groups.map (fun g =>
          if g.pattern = pat then ⟨g.pattern, g.addrs ++ [addr]⟩ else g)) ∧
    (pat ∉ groups.map DownstreamAddrGroup.pattern →
      add_to_groups addr pat groups = groups ++ [⟨pat, [addr]⟩]) ∧
    (∀ tok : List Char,
      parse_mapping np addr2 [tok] (parse_mapping np addr [tok] []) =
        [⟨normalize_pattern np tok, [addr, addr2]⟩]) := by
  have hpair : ∀ gs : List DownstreamAddrGroup,
      gs.Pairwise (fun a b => a.pattern ≠ b.pattern) →
      (parse_mapping np addr mapping gs).Pairwise
        (fun a b => a.pattern ≠ b.pattern) := by
    induction mapping with
    | nil => exact fun gs h => h
    | cons tok toks ih =>
      intro gs h
      rw [parse_mapping_cons]
      exact ih _ (add_to_groups_pairwise _ _ _ h)
  have hpre : ∀ gs : List DownstreamAddrGroup,
      gs.map DownstreamAddrGroup.pattern <+:
        (parse_mapping np addr mapping gs).map DownstreamAddrGroup.pattern := by
    clear hpair
    induction mapping with
    | nil => exact fun gs => List.prefix_rfl
    | cons tok toks ih =>
      intro gs
      rw [parse_mapping_cons]
      exact (add_to_groups_pattern_pre addr (normalize_pattern np tok) gs).trans
        (ih (add_to_groups addr (normalize_pattern np tok) gs))
  refine ⟨hpair groups hdist, hpre groups, add_to_groups_mem addr pat groups hdist,
    add_to_groups_new addr pat groups, ?_⟩
  intro tok
  simp [parse_mapping, add_to_groups]

/-- Closed instance of `C9_parse_mapping_spec`: adding an address under
the fresh pattern `"/b"` to a table holding pattern `"/"`. -/
theorem C9_parse_mapping_spec_witness :
    (parse_mapping id ⟨['x'], 1, false⟩ [['/', 'b']]
        [⟨['/'], []⟩]).Pairwise (fun a b => a.pattern ≠ b.pattern) ∧
    (([⟨['/'], []⟩] : List DownstreamAddrGroup).map DownstreamAddrGroup.pattern <+:
      (parse_mapping id ⟨['x'], 1, false⟩ [['/', 'b']]
        [⟨['/'], []⟩]).map DownstreamAddrGroup.pattern) ∧
    (['/'] ∈ ([⟨['/'], []⟩] : List DownstreamAddrGroup).map DownstreamAddrGroup.pattern →
      add_to_groups ⟨['x'], 1, false⟩ ['/'] [⟨['/'], []⟩] =
        ([⟨['/'], []⟩] : List DownstreamAddrGroup).map (fun g =>
          if g.pattern = ['/'] then ⟨g.pattern, g.addrs ++ [⟨['x'], 1, false⟩]⟩ else g)) ∧
    (['/'] ∉ ([⟨['/'], []⟩] : List DownstreamAddrGroup).map DownstreamAddrGroup.pattern →
      add_to_groups ⟨['x'], 1, false⟩ ['/'] [⟨['/'], []⟩] =
        [⟨['/'], []⟩] ++ [⟨['/'], [⟨['x'], 1, false⟩]⟩]) ∧
    (∀ tok : List Char,
      parse_mapping id ⟨['y'], 2, false⟩ [tok]
          (parse_mapping id ⟨['x'], 1, false⟩ [tok] []) =
        [⟨normalize_pattern id tok, [⟨['x'], 1, false⟩, ⟨['y'], 2, false⟩]⟩]) :=
  C9_parse_mapping_spec id ⟨['x'], 1, false⟩ ⟨['y'], 2, false⟩ ['/'] [['/', 'b']]
    [⟨['/'], []⟩] (by decide)

end Shrpx
